import Mathlib

/-!
Verification development for the code-factory core subsystems:
the agent execution runtime (`agent_runtime.py`), the transactional
file writer (`transaction.py`), the checkpoint manager (`checkpoint.py`)
and the pipeline orchestrator (`orchestrator.py`).

The filesystem is modelled as an association list from paths to file
contents (a path is its list of components); directories are implicit.
Python `datetime` values are modelled as natural numbers (seconds).
-/

namespace CodeFactory

/-- A filesystem path, as its list of components. -/
abbrev Path : Type := List String

/-- A filesystem: a finite map from paths to file contents, represented
as an association list (later bindings shadow earlier ones). -/
abbrev FS : Type := List (Path × String)

namespace FS

/-- Look up the content of the file at path `p`, if any. -/
def get (fs : FS) (p : Path) : Option String :=
  match fs with
  | [] => none
  | (q, c) :: rest => if q = p then some c else get rest p

/-- Write content `c` at path `p` (create or overwrite). -/
def set (fs : FS) (p : Path) (c : String) : FS :=
  (p, c) :: fs

/-- Remove the file at path `p` (no-op when absent). -/
def del (fs : FS) (p : Path) : FS :=
  match fs with
  | [] => []
  | (q, c) :: rest => if q = p then del rest p else (q, c) :: del rest p

/-- Remove every file strictly below directory `dir`
(the model of `shutil.rmtree(dir)`). -/
def delDir (fs : FS) (dir : Path) : FS :=
  match fs with
  | [] => []
  | (q, c) :: rest =>
    if dir <+: q ∧ dir ≠ q then delDir rest dir else (q, c) :: delDir rest dir

theorem get_set_self (fs : FS) (p : Path) (c : String) :
    (fs.set p c).get p = some c := by
  simp [get, set]

theorem get_set_ne (fs : FS) (p q : Path) (c : String) (h : p ≠ q) :
    (fs.set p c).get q = fs.get q := by
  simp [get, set, h]

theorem get_del_self (fs : FS) (p : Path) : (fs.del p).get p = none := by
  induction fs with
  | nil => rfl
  | cons e rest ih =>
    obtain ⟨q, c⟩ := e
    by_cases h : q = p
    · rw [del, if_pos h]; exact ih
    · rw [del, if_neg h, get, if_neg h]; exact ih

theorem get_del_ne (fs : FS) (p q : Path) (h : p ≠ q) :
    (fs.del p).get q = fs.get q := by
  induction fs with
  | nil => rfl
  | cons e rest ih =>
    obtain ⟨r, c⟩ := e
    by_cases h1 : r = p
    · have h2 : ¬ r = q := by rw [h1]; exact h
      rw [del, if_pos h1, get, if_neg h2]; exact ih
    · by_cases h2 : r = q
      · rw [del, if_neg h1, get, if_pos h2, get, if_pos h2]
      · rw [del, if_neg h1, get, if_neg h2, get, if_neg h2]; exact ih

theorem get_delDir_of_under (fs : FS) (dir : Path) (p : Path)
    (h1 : dir <+: p) (h2 : dir ≠ p) : (fs.delDir dir).get p = none := by
  induction fs with
  | nil => rfl
  | cons e rest ih =>
    obtain ⟨q, c⟩ := e
    by_cases he : dir <+: q ∧ dir ≠ q
    · rw [delDir, if_pos he]; exact ih
    · have hne : ¬ q = p := by
        intro hep; exact he (by rw [hep]; exact ⟨h1, h2⟩)
      rw [delDir, if_neg he, get, if_neg hne]; exact ih

theorem get_delDir_of_not_under (fs : FS) (dir : Path) (p : Path)
    (h : ¬ (dir <+: p ∧ dir ≠ p)) : (fs.delDir dir).get p = fs.get p := by
  induction fs with
  | nil => rfl
  | cons e rest ih =>
    obtain ⟨q, c⟩ := e
    by_cases he : dir <+: q ∧ dir ≠ q
    · have hne : ¬ q = p := by
        intro hep; exact h (by rw [← hep]; exact he)
      rw [delDir, if_pos he, get, if_neg hne]; exact ih
    · by_cases h2 : q = p
      · rw [delDir, if_neg he, get, if_pos h2, get, if_pos h2]
      · rw [delDir, if_neg he, get, if_neg h2, get, if_neg h2]; exact ih

theorem length_del_le (fs : FS) (p : Path) : (fs.del p).length ≤ fs.length := by
  induction fs with
  | nil => exact Nat.le_refl _
  | cons e rest ih =>
    obtain ⟨q, c⟩ := e
    by_cases h : q = p
    · rw [del, if_pos h]; exact Nat.le_succ_of_le ih
    · rw [del, if_neg h]; exact Nat.succ_le_succ ih

end FS

/-- Joining a directory path with a path relative to it
(the model of `dir / relative_path`). -/
def joinPath (dir : Path) (rel : Path) : Path := dir ++ rel

theorem joinPath_inj (dir : Path) (r1 r2 : Path)
    (h : joinPath dir r1 = joinPath dir r2) : r1 = r2 := by
  simpa [joinPath] using h

/-- Two directories are separate when neither is a prefix of the other;
then no path lies under both. -/
def SeparateDirs (d1 d2 : Path) : Prop := ¬ d1 <+: d2 ∧ ¬ d2 <+: d1

instance (d1 d2 : Path) : Decidable (SeparateDirs d1 d2) := by
  unfold SeparateDirs; infer_instance

theorem joinPath_ne_of_separate (d1 d2 : Path) (h : SeparateDirs d1 d2)
    (r1 r2 : Path) : joinPath d1 r1 ≠ joinPath d2 r2 := by
  intro he
  rcases h with ⟨h1, h2⟩
  have p1 : d1 <+: joinPath d1 r1 := ⟨r1, rfl⟩
  have p2 : d2 <+: joinPath d1 r1 := by rw [he]; exact ⟨r2, rfl⟩
  rcases List.prefix_or_prefix_of_prefix p1 p2 with h | h
  · exact h1 h
  · exact h2 h

theorem prefix_joinPath_self (dir rel : Path) : dir <+: joinPath dir rel :=
  ⟨rel, rfl⟩

theorem not_under_of_separate (d1 d2 : Path) (h : SeparateDirs d1 d2)
    (rel : Path) : ¬ (d2 <+: joinPath d1 rel ∧ d2 ≠ joinPath d1 rel) := by
  rintro ⟨⟨s, hs⟩, _⟩
  exact joinPath_ne_of_separate d1 d2 h rel s hs.symm

/-! Transactional file writer, from `transaction.py`.  A `FileOperation`
records one applied filesystem mutation for possible undo; a `Transaction`
applies operations under a staging root (staged mode) or directly in the
working directory (direct mode, `enable_staging = False`). -/

/-- FileOperation, from `transaction.py` lines 20-34: one recorded file
system operation (`operation_type` is one of create, modify, delete, move). -/
structure FileOperation where
  operation_type : String
  target_path : Path
  backup_path : Option Path
  content : Option String
deriving DecidableEq, Repr

/-- FileOperation.rollback, from `transaction.py` lines 36-71, acting on the
modelled filesystem: a create is deleted (when still present), a modify or
delete is restored by copying the backup (when the backup exists), a move is
moved back. -/
def FileOperation.rollbackFS (op : FileOperation) (fs : FS) : FS :=
  if op.operation_type = "create" then
    if (fs.get op.target_path).isSome then fs.del op.target_path else fs
  else if op.operation_type = "modify" then
    match op.backup_path with
    | some b =>
      match fs.get b with
      | some c => fs.set op.target_path c
      | none => fs
    | none => fs
  else if op.operation_type = "delete" then
    match op.backup_path with
    | some b =>
      match fs.get b with
      | some c => fs.set op.target_path c
      | none => fs
    | none => fs
  else if op.operation_type = "move" then
    match op.backup_path with
    | some b =>
      match fs.get op.target_path with
      | some c => (fs.set b c).del op.target_path
      | none => fs
    | none => fs
  else fs

/-- Transaction state, from `transaction.py` lines 87-115.  The global
configuration object only supplies the staging area location, so the
staging and backup directories are parameters here; `__init__` sets
`staging_dir` to a fresh timestamped directory in staged mode and to the
working directory itself in direct mode. -/
structure Transaction where
  working_dir : Path
  enable_staging : Bool
  staging_dir : Path
  backup_dir : Path
  operations : List FileOperation
  active : Bool
  committed : Bool
  rolled_back : Bool
deriving DecidableEq, Repr

namespace Transaction

/-- Transaction.__init__ (`transaction.py` lines 87-115): in staged mode the
staging directory is a fresh area `stagingArea` taken from configuration; in
direct mode it is the working directory itself. -/
def init (working_dir : Path) (enable_staging : Bool)
    (stagingArea backupArea : Path) : Transaction :=
  { working_dir := working_dir
    enable_staging := enable_staging
    staging_dir := if enable_staging then stagingArea else working_dir
    backup_dir := backupArea
    operations := []
    active := false
    committed := false
    rolled_back := false }

/-- Transaction.__enter__ (`transaction.py` lines 117-127): marks the
transaction active (directory creation is implicit in the map model). -/
def enter (t : Transaction) : Transaction := { t with active := true }

/-- Transaction.create_file (`transaction.py` lines 147-167): writes the
content at the staging path unconditionally and records a create operation
(with no backup, even when the path already held a file). -/
def create_file (t : Transaction) (fs : FS) (rel : Path) (content : String) :
    Except String (Transaction × FS) :=
  if ¬ t.active then .error "Transaction not active" else
  let target := joinPath t.staging_dir rel
  .ok ({ t with operations :=
           t.operations ++ [⟨"create", target, none, some content⟩] },
       fs.set target content)

/-- Transaction.modify_file (`transaction.py` lines 186-212): backs the
existing file up (when present), overwrites the staging path, and records a
modify operation carrying the backup path. -/
def modify_file (t : Transaction) (fs : FS) (rel : Path) (new_content : String) :
    Except String (Transaction × FS) :=
  if ¬ t.active then .error "Transaction not active" else
  let target := joinPath t.staging_dir rel
  match fs.get target with
  | some c =>
    let backup := joinPath t.backup_dir rel
    .ok ({ t with operations :=
             t.operations ++ [⟨"modify", target, some backup, some new_content⟩] },
         (fs.set backup c).set target new_content)
  | none =>
    .ok ({ t with operations :=
             t.operations ++ [⟨"modify", target, none, some new_content⟩] },
         fs.set target new_content)

/-- Transaction.delete_file (`transaction.py` lines 214-239): when the
staging path exists it is backed up and removed and a delete operation is
recorded; when it does not exist, nothing happens and nothing is recorded. -/
def delete_file (t : Transaction) (fs : FS) (rel : Path) :
    Except String (Transaction × FS) :=
  if ¬ t.active then .error "Transaction not active" else
  let target := joinPath t.staging_dir rel
  match fs.get target with
  | some c =>
    let backup := joinPath t.backup_dir rel
    .ok ({ t with operations :=
             t.operations ++ [⟨"delete", target, some backup, none⟩] },
         (fs.set backup c).del target)
  | none => .ok (t, fs)

/-- The canonical entry list of a filesystem: one entry per live file, in
first-occurrence order (shadowed stale bindings dropped). -/
def canonEntries : FS → FS
  | [] => []
  | (p, c) :: rest => (p, c) :: FS.del (canonEntries rest) p

/-- Every file below `src` is copied to the corresponding path below `dst`
(the commit copy loop, `transaction.py` lines 262-268).  The iteration
visits each live file under `src` exactly once, as `rglob` does. -/
def copyTree (fs : FS) (src dst : Path) : FS :=
  copyAux (canonEntries fs) fs src dst
where
  /-- Fold the copy over the entries of the first list. -/
  copyAux : List (Path × String) → FS → Path → Path → FS
  | [], fs, _, _ => fs
  | (p, c) :: rest, fs, src, dst =>
    let fs :=
      if src <+: p ∧ src ≠ p then fs.set (joinPath dst (p.drop src.length)) c
      else fs
    copyAux rest fs src dst

/-- Transaction.commit (`transaction.py` lines 241-281): raises when the
transaction is not active (note: this check precedes the already-committed
check, and a successful commit clears `active`); in staged mode copies every
staged file into the working directory and then removes the staging root. -/
def commit (t : Transaction) (fs : FS) : Except String (Transaction × FS) :=
  if ¬ t.active then .error "Transaction not active" else
  if t.committed then .ok (t, fs) else
  let fs :=
    if t.enable_staging ∧ t.staging_dir ≠ t.working_dir then
      copyTree fs t.staging_dir t.working_dir
    else fs
  let t1 := { t with committed := true, active := false }
  let fs := if t.enable_staging then fs.delDir t.staging_dir else fs
  .ok (t1, fs)

/-- Transaction.rollback (`transaction.py` lines 283-312): a no-op when
already rolled back; otherwise undoes the recorded operations in reverse
order and, in staged mode, removes the staging root. -/
def rollback (t : Transaction) (fs : FS) : Transaction × FS :=
  if t.rolled_back then (t, fs) else
  let fs := t.operations.reverse.foldl (fun fs op => op.rollbackFS fs) fs
  let t1 := { t with rolled_back := true, active := false }
  let fs := if t.enable_staging then fs.delDir t.staging_dir else fs
  (t1, fs)

end Transaction

/-- A requested file operation, as issued by a caller of the transaction
API (`create_file`, `modify_file`, `delete_file`). -/
inductive Req where
  | createF (rel : Path) (content : String)
  | modifyF (rel : Path) (content : String)
  | deleteF (rel : Path)
deriving DecidableEq, Repr

/-- The relative path a request targets. -/
def Req.rel : Req → Path
  | .createF r _ => r
  | .modifyF r _ => r
  | .deleteF r => r

/-- Dispatch one request to the corresponding transaction method. -/
def applyReq (t : Transaction) (fs : FS) : Req → Except String (Transaction × FS)
  | .createF rel c => t.create_file fs rel c
  | .modifyF rel c => t.modify_file fs rel c
  | .deleteF rel => t.delete_file fs rel

/-- Apply a sequence of requests through the transaction API. -/
def applyReqs (t : Transaction) (fs : FS) : List Req → Except String (Transaction × FS)
  | [] => .ok (t, fs)
  | r :: rest =>
    match applyReq t fs r with
    | .ok (t1, fs1) => applyReqs t1 fs1 rest
    | .error e => .error e

namespace Transaction

theorem create_file_eq (t : Transaction) (fs : FS) (rel : Path) (c : String)
    (h : t.active = true) :
    t.create_file fs rel c =
      .ok ({ t with operations := t.operations ++
               [⟨"create", joinPath t.staging_dir rel, none, some c⟩] },
           fs.set (joinPath t.staging_dir rel) c) := by
  rw [create_file, if_neg (by rw [h]; exact fun hc => hc rfl)]

theorem modify_file_eq_some (t : Transaction) (fs : FS) (rel : Path)
    (c c0 : String) (h : t.active = true)
    (hget : fs.get (joinPath t.staging_dir rel) = some c0) :
    t.modify_file fs rel c =
      .ok ({ t with operations := t.operations ++
               [⟨"modify", joinPath t.staging_dir rel,
                 some (joinPath t.backup_dir rel), some c⟩] },
           (fs.set (joinPath t.backup_dir rel) c0).set
             (joinPath t.staging_dir rel) c) := by
  rw [modify_file, if_neg (by rw [h]; exact fun hc => hc rfl)]
  simp only [hget]

theorem modify_file_eq_none (t : Transaction) (fs : FS) (rel : Path)
    (c : String) (h : t.active = true)
    (hget : fs.get (joinPath t.staging_dir rel) = none) :
    t.modify_file fs rel c =
      .ok ({ t with operations := t.operations ++
               [⟨"modify", joinPath t.staging_dir rel, none, some c⟩] },
           fs.set (joinPath t.staging_dir rel) c) := by
  rw [modify_file, if_neg (by rw [h]; exact fun hc => hc rfl)]
  simp only [hget]

theorem delete_file_eq_some (t : Transaction) (fs : FS) (rel : Path)
    (c0 : String) (h : t.active = true)
    (hget : fs.get (joinPath t.staging_dir rel) = some c0) :
    t.delete_file fs rel =
      .ok ({ t with operations := t.operations ++
               [⟨"delete", joinPath t.staging_dir rel,
                 some (joinPath t.backup_dir rel), none⟩] },
           (fs.set (joinPath t.backup_dir rel) c0).del
             (joinPath t.staging_dir rel)) := by
  rw [delete_file, if_neg (by rw [h]; exact fun hc => hc rfl)]
  simp only [hget]

theorem delete_file_eq_none (t : Transaction) (fs : FS) (rel : Path)
    (h : t.active = true)
    (hget : fs.get (joinPath t.staging_dir rel) = none) :
    t.delete_file fs rel = .ok (t, fs) := by
  rw [delete_file, if_neg (by rw [h]; exact fun hc => hc rfl)]
  simp only [hget]

end Transaction

/-- Well-formedness of recorded operations: every target lies below the
staging root and every backup below the backup root. -/
def OpsWF (s b : Path) (ops : List FileOperation) : Prop :=
  ∀ op ∈ ops, s <+: op.target_path ∧ ∀ bp ∈ op.backup_path, b <+: bp

theorem opsWF_nil (s b : Path) : OpsWF s b [] := by
  intro op hop; cases hop

theorem opsWF_append (s b : Path) (l1 l2 : List FileOperation)
    (h1 : OpsWF s b l1) (h2 : OpsWF s b l2) : OpsWF s b (l1 ++ l2) := by
  intro op hop
  rcases List.mem_append.mp hop with h | h
  · exact h1 op h
  · exact h2 op h

theorem opsWF_reverse (s b : Path) (l : List FileOperation)
    (h : OpsWF s b l) : OpsWF s b l.reverse := by
  intro op hop
  exact h op (List.mem_reverse.mp hop)

/-- Applying one request with an active transaction always succeeds, only
appends well-formed operations, and only writes below the staging and
backup roots. -/
theorem applyReq_cases (t : Transaction) (fs : FS) (r : Req)
    (h : t.active = true) :
    ∃ t1 fs1 l, applyReq t fs r = .ok (t1, fs1) ∧
      t1 = { t with operations := t.operations ++ l } ∧
      OpsWF t.staging_dir t.backup_dir l ∧
      (∀ p, ¬ t.staging_dir <+: p → ¬ t.backup_dir <+: p →
        fs1.get p = fs.get p) := by
  have hne : ∀ rel p : Path, ¬ t.staging_dir <+: p →
      joinPath t.staging_dir rel ≠ p := by
    intro rel p hs he; exact hs (he ▸ prefix_joinPath_self _ _)
  have hneb : ∀ rel p : Path, ¬ t.backup_dir <+: p →
      joinPath t.backup_dir rel ≠ p := by
    intro rel p hb he; exact hb (he ▸ prefix_joinPath_self _ _)
  cases r with
  | createF rel c =>
    refine ⟨_, _, _, Transaction.create_file_eq t fs rel c h, rfl, ?_, ?_⟩
    · intro op hop
      rw [List.mem_singleton] at hop
      subst hop
      exact ⟨prefix_joinPath_self _ _, by intro bp hbp; cases hbp⟩
    · intro p hs hb
      exact FS.get_set_ne fs _ p c (hne rel p hs)
  | modifyF rel c =>
    cases hget : fs.get (joinPath t.staging_dir rel) with
    | some c0 =>
      refine ⟨_, _, _, Transaction.modify_file_eq_some t fs rel c c0 h hget,
        rfl, ?_, ?_⟩
      · intro op hop
        rw [List.mem_singleton] at hop
        subst hop
        refine ⟨prefix_joinPath_self _ _, ?_⟩
        intro bp hbp
        rw [Option.mem_def, Option.some_inj] at hbp
        exact hbp ▸ prefix_joinPath_self _ _
      · intro p hs hb
        rw [FS.get_set_ne _ _ p c (hne rel p hs),
          FS.get_set_ne _ _ p c0 (hneb rel p hb)]
    | none =>
      refine ⟨_, _, _, Transaction.modify_file_eq_none t fs rel c h hget,
        rfl, ?_, ?_⟩
      · intro op hop
        rw [List.mem_singleton] at hop
        subst hop
        exact ⟨prefix_joinPath_self _ _, by intro bp hbp; cases hbp⟩
      · intro p hs hb
        exact FS.get_set_ne fs _ p c (hne rel p hs)
  | deleteF rel =>
    cases hget : fs.get (joinPath t.staging_dir rel) with
    | some c0 =>
      refine ⟨_, _, _, Transaction.delete_file_eq_some t fs rel c0 h hget,
        rfl, ?_, ?_⟩
      · intro op hop
        rw [List.mem_singleton] at hop
        subst hop
        refine ⟨prefix_joinPath_self _ _, ?_⟩
        intro bp hbp
        rw [Option.mem_def, Option.some_inj] at hbp
        exact hbp ▸ prefix_joinPath_self _ _
      · intro p hs hb
        rw [FS.get_del_ne _ _ p (hne rel p hs),
          FS.get_set_ne _ _ p c0 (hneb rel p hb)]
    | none =>
      refine ⟨t, fs, [], Transaction.delete_file_eq_none t fs rel h hget,
        ?_, opsWF_nil _ _, fun p _ _ => rfl⟩
      cases t; simp

/-- Applying a request sequence with an active transaction always succeeds,
only appends well-formed operations, and only writes below the staging and
backup roots. -/
theorem applyReqs_cases (reqs : List Req) (t : Transaction) (fs : FS)
    (h : t.active = true) :
    ∃ t1 fs1 l, applyReqs t fs reqs = .ok (t1, fs1) ∧
      t1 = { t with operations := t.operations ++ l } ∧
      OpsWF t.staging_dir t.backup_dir l ∧
      (∀ p, ¬ t.staging_dir <+: p → ¬ t.backup_dir <+: p →
        fs1.get p = fs.get p) := by
  induction reqs generalizing t fs with
  | nil =>
    refine ⟨t, fs, [], rfl, ?_, opsWF_nil _ _, fun p _ _ => rfl⟩
    cases t; simp
  | cons r rest ih =>
    obtain ⟨t1, fs1, l1, happ, ht1, hwf1, hframe1⟩ := applyReq_cases t fs r h
    have h1 : t1.active = true := by rw [ht1]; exact h
    obtain ⟨t2, fs2, l2, happs, ht2, hwf2, hframe2⟩ := ih t1 fs1 h1
    have hs1 : t1.staging_dir = t.staging_dir := by rw [ht1]
    have hb1 : t1.backup_dir = t.backup_dir := by rw [ht1]
    refine ⟨t2, fs2, l1 ++ l2, ?_, ?_, ?_, ?_⟩
    · simp only [applyReqs, happ, happs]
    · rw [ht2, ht1]; simp
    · exact opsWF_append _ _ _ _ hwf1 (by rw [hs1, hb1] at hwf2; exact hwf2)
    · intro p hs hb
      rw [hframe2 p (hs1 ▸ hs) (hb1 ▸ hb), hframe1 p hs hb]

/-- Undoing a single well-formed operation writes only below the staging
and backup roots. -/
theorem rollbackFS_frame (op : FileOperation) (fs : FS) (s b : Path)
    (hwf : s <+: op.target_path ∧ ∀ bp ∈ op.backup_path, b <+: bp)
    (p : Path) (hs : ¬ s <+: p) (hb : ¬ b <+: p) :
    (op.rollbackFS fs).get p = fs.get p := by
  obtain ⟨hwt, hwb⟩ := hwf
  have hnt : op.target_path ≠ p := fun he => hs (he ▸ hwt)
  obtain ⟨ty, tp, bpO, ct⟩ := op
  have hnt1 : tp ≠ p := hnt
  have hrestore : ∀ bpO1 : Option Path,
      (∀ bp ∈ bpO1, b <+: bp) →
      ((match bpO1 with
        | some bq =>
          match fs.get bq with
          | some c => fs.set tp c
          | none => fs
        | none => fs) : FS).get p = fs.get p := by
    intro bpO1 hwb1
    cases bpO1 with
    | none => rfl
    | some bq =>
      cases hg : fs.get bq with
      | none => simp only [hg]
      | some c0 =>
        simp only [hg]
        exact FS.get_set_ne fs tp p c0 hnt1
  unfold FileOperation.rollbackFS
  dsimp only
  by_cases h1 : ty = "create"
  · rw [if_pos h1]
    cases hg : (fs.get tp).isSome with
    | true => rw [if_pos rfl]; exact FS.get_del_ne fs tp p hnt1
    | false => rw [if_neg (by simp)]
  · rw [if_neg h1]
    by_cases h2 : ty = "modify"
    · rw [if_pos h2]
      exact hrestore bpO hwb
    · rw [if_neg h2]
      by_cases h3 : ty = "delete"
      · rw [if_pos h3]
        exact hrestore bpO hwb
      · rw [if_neg h3]
        by_cases h4 : ty = "move"
        · rw [if_pos h4]
          cases bpO with
          | none => rfl
          | some bq =>
            have hnb1 : bq ≠ p := by
              intro he
              exact hb (he ▸ hwb bq rfl)
            cases hg : fs.get tp with
            | none => simp only [hg]
            | some c0 =>
              simp only [hg]
              rw [FS.get_del_ne _ tp p hnt1, FS.get_set_ne fs bq p c0 hnb1]
        · rw [if_neg h4]

/-- Undoing a list of well-formed operations writes only below the staging
and backup roots. -/
theorem undoList_frame (ops : List FileOperation) (fs : FS) (s b : Path)
    (hwf : OpsWF s b ops) (p : Path) (hs : ¬ s <+: p) (hb : ¬ b <+: p) :
    (ops.foldl (fun a op => op.rollbackFS a) fs).get p = fs.get p := by
  induction ops generalizing fs with
  | nil => rfl
  | cons op rest ih =>
    rw [List.foldl_cons,
      ih _ (fun o ho => hwf o (List.mem_cons_of_mem op ho)),
      rollbackFS_frame op fs s b (hwf op (List.mem_cons_self op rest)) p hs hb]

theorem not_prefix_joinPath_of_separate (d1 d2 : Path) (h : SeparateDirs d1 d2)
    (rel : Path) : ¬ d2 <+: joinPath d1 rel := by
  intro hp
  rcases List.prefix_or_prefix_of_prefix (prefix_joinPath_self d1 rel) hp
    with hh | hh
  · exact h.1 hh
  · exact h.2 hh

/-- In staged mode every operation and its undo touch only the staging and
backup areas, so a rollback leaves the working directory byte-identical,
whatever requests were issued. -/
theorem rollback_staged_restores (t : Transaction) (fs : FS) (reqs : List Req)
    (hact : t.active = true) (hrb : t.rolled_back = false)
    (hops : t.operations = [])
    (hsw : SeparateDirs t.working_dir t.staging_dir)
    (hbw : SeparateDirs t.working_dir t.backup_dir) :
    ∀ t1 fs1, applyReqs t fs reqs = .ok (t1, fs1) →
      ∀ rel, ((t1.rollback fs1).2).get (joinPath t.working_dir rel)
           = fs.get (joinPath t.working_dir rel) := by
  intro t1 fs1 happ rel
  obtain ⟨t1x, fs1x, l, happx, ht1, hwf, hframe⟩ := applyReqs_cases reqs t fs hact
  rw [happ] at happx
  have hpair : (t1, fs1) = (t1x, fs1x) := Except.ok.inj happx
  have he1 : t1 = t1x := congrArg Prod.fst hpair
  have he2 : fs1 = fs1x := congrArg Prod.snd hpair
  subst he1; subst he2
  have hnps : ¬ t.staging_dir <+: joinPath t.working_dir rel :=
    not_prefix_joinPath_of_separate _ _ hsw rel
  have hnpb : ¬ t.backup_dir <+: joinPath t.working_dir rel :=
    not_prefix_joinPath_of_separate _ _ hbw rel
  rw [Transaction.rollback, if_neg (by rw [ht1]; simp [hrb])]
  dsimp only
  have hops1 : t1.operations = l := by rw [ht1]; simp [hops]
  rw [ht1]
  dsimp only
  split
  · rw [FS.get_delDir_of_not_under _ _ _ (fun hc => hnps hc.1),
      hops, List.nil_append,
      undoList_frame _ _ _ _ (opsWF_reverse _ _ _ hwf) _ hnps hnpb]
    exact hframe _ hnps hnpb
  · rw [hops, List.nil_append,
      undoList_frame _ _ _ _ (opsWF_reverse _ _ _ hwf) _ hnps hnpb]
    exact hframe _ hnps hnpb

/-- The per-request precondition under which a direct-mode rollback can
restore the working directory: a created file must be fresh and a modified
file must already exist (`delete_file` of a missing path records nothing). -/
def okOne (t : Transaction) (fs : FS) : Req → Bool
  | .createF rel _ => (fs.get (joinPath t.staging_dir rel)).isNone
  | .modifyF rel _ => (fs.get (joinPath t.staging_dir rel)).isSome
  | .deleteF _ => true

/-- The request-sequence precondition, checked against the evolving
filesystem state. -/
def reqsOK (t : Transaction) (fs : FS) : List Req → Bool
  | [] => true
  | r :: rest =>
    okOne t fs r &&
      match applyReq t fs r with
      | .ok (t1, fs1) => reqsOK t1 fs1 rest
      | .error _ => false

theorem except_ok_pair {α β : Type} {a1 a2 : α} {b1 b2 : β}
    (h : (Except.ok (a1, b1) : Except String (α × β)) = .ok (a2, b2)) :
    a1 = a2 ∧ b1 = b2 := by
  have hp := Except.ok.inj h
  exact ⟨congrArg Prod.fst hp, congrArg Prod.snd hp⟩

theorem rollbackFS_create_eq (tp : Path) (ct : Option String) (fs : FS)
    (hsome : (fs.get tp).isSome = true) :
    FileOperation.rollbackFS ⟨"create", tp, none, ct⟩ fs = fs.del tp := by
  simp [FileOperation.rollbackFS, hsome]

theorem rollbackFS_restore_eq (ty : String)
    (hty : ty = "modify" ∨ ty = "delete") (tp bp : Path) (ct : Option String)
    (fs : FS) (c0 : String) (hget : fs.get bp = some c0) :
    FileOperation.rollbackFS ⟨ty, tp, some bp, ct⟩ fs = fs.set tp c0 := by
  rcases hty with h | h <;> subst h <;> simp [FileOperation.rollbackFS, hget]

/-- Direct-mode inversion: provided every created file was fresh, every
modified file existed, and no two requests touch the same relative path,
undoing the recorded operations in reverse order restores every
working-directory file, and leaves untouched backup slots intact. -/
theorem undo_applyReqs_direct (reqs : List Req) :
    ∀ t fs, t.active = true → t.staging_dir = t.working_dir →
    SeparateDirs t.working_dir t.backup_dir →
    reqsOK t fs reqs = true → (reqs.map Req.rel).Nodup →
    ∀ t1 fs1, applyReqs t fs reqs = .ok (t1, fs1) →
    (∀ rel,
      (((t1.operations.drop t.operations.length).reverse.foldl
          (fun a op => op.rollbackFS a) fs1)).get (joinPath t.working_dir rel)
        = fs.get (joinPath t.working_dir rel)) ∧
    (∀ rel, rel ∉ reqs.map Req.rel →
      (((t1.operations.drop t.operations.length).reverse.foldl
          (fun a op => op.rollbackFS a) fs1)).get (joinPath t.backup_dir rel)
        = fs.get (joinPath t.backup_dir rel)) := by
  induction reqs with
  | nil =>
    intro t fs hact hsw hsep hok hnd t1 fs1 happ
    obtain ⟨he1, he2⟩ := except_ok_pair happ
    subst he1; subst he2
    rw [List.drop_length]
    exact ⟨fun rel => rfl, fun rel hmem => rfl⟩
  | cons r rest ih =>
    intro t fs hact hsw hsep hok hnd t1 fs1 happ
    rw [reqsOK, Bool.and_eq_true] at hok
    obtain ⟨hok1, hok2⟩ := hok
    rw [List.map_cons, List.nodup_cons] at hnd
    obtain ⟨hnmem, hnd2⟩ := hnd
    have hsepBW : SeparateDirs t.backup_dir t.working_dir := ⟨hsep.2, hsep.1⟩
    cases r with
    | createF rel c =>
      have hget : fs.get (joinPath t.working_dir rel) = none := by
        have := hok1
        rw [okOne, Option.isNone_iff_eq_none, hsw] at this
        exact this
      have heq := Transaction.create_file_eq t fs rel c hact
      rw [hsw] at heq
      rw [applyReqs] at happ
      simp only [applyReq] at hok2 happ
      rw [heq] at hok2 happ
      dsimp only at hok2 happ
      obtain ⟨hA1, hB1⟩ := ih
          { t with staging_dir := t.working_dir,
                   operations := t.operations ++
                     [⟨"create", joinPath t.working_dir rel, none, some c⟩] }
          (fs.set (joinPath t.working_dir rel) c)
          hact rfl hsep hok2 hnd2 t1 fs1 happ
      dsimp only at hA1 hB1
      obtain ⟨t1y, fs1y, l2, happy, ht1y, hwf2, hframe2⟩ :=
        applyReqs_cases rest
          { t with staging_dir := t.working_dir,
                   operations := t.operations ++
                     [⟨"create", joinPath t.working_dir rel, none, some c⟩] }
          (fs.set (joinPath t.working_dir rel) c) hact
      rw [happ] at happy
      obtain ⟨he1, he2⟩ := except_ok_pair happy
      subst he1; subst he2
      have hops1 : t1.operations =
          t.operations ++
            ([⟨"create", joinPath t.working_dir rel, none, some c⟩] ++ l2) := by
        rw [ht1y]
        dsimp only
        rw [List.append_assoc]
      have hdropOuter : List.drop t.operations.length t1.operations =
          [⟨"create", joinPath t.working_dir rel, none, some c⟩] ++ l2 := by
        rw [hops1]
        exact List.drop_left _ _
      have hdropInner : List.drop (t.operations ++
            [(⟨"create", joinPath t.working_dir rel, none, some c⟩ :
              FileOperation)]).length t1.operations = l2 := by
        rw [ht1y]
        dsimp only
        exact List.drop_left _ _
      rw [hdropInner] at hA1 hB1
      rw [hdropOuter]
      rw [List.reverse_append, List.reverse_cons, List.reverse_nil,
        List.nil_append, List.foldl_append, List.foldl_cons, List.foldl_nil]
      have hlive : ((List.foldl (fun a op => op.rollbackFS a) fs1
          l2.reverse)).get (joinPath t.working_dir rel) = some c := by
        rw [hA1 rel]
        exact FS.get_set_self fs _ c
      rw [rollbackFS_create_eq _ (some c) _ (by rw [hlive]; rfl)]
      constructor
      · intro rel0
        by_cases hr : rel0 = rel
        · subst hr
          rw [FS.get_del_self, hget]
        · have hner : joinPath t.working_dir rel ≠ joinPath t.working_dir rel0 :=
            fun hc => hr (joinPath_inj _ _ _ hc).symm
          rw [FS.get_del_ne _ _ _ hner, hA1 rel0,
            FS.get_set_ne _ _ _ c hner]
      · intro rel0 hmem0
        rw [List.map_cons, List.mem_cons] at hmem0
        push_neg at hmem0
        have hnwb : joinPath t.working_dir rel ≠ joinPath t.backup_dir rel0 :=
          joinPath_ne_of_separate _ _ hsep rel rel0
        rw [FS.get_del_ne _ _ _ hnwb, hB1 rel0 hmem0.2,
          FS.get_set_ne _ _ _ c hnwb]
    | modifyF rel c =>
      rw [okOne, Option.isSome_iff_exists] at hok1
      obtain ⟨c0, hget⟩ := hok1
      have heq := Transaction.modify_file_eq_some t fs rel c c0 hact hget
      rw [hsw] at heq hget
      dsimp only [Req.rel] at hnmem
      rw [applyReqs] at happ
      simp only [applyReq] at hok2 happ
      rw [heq] at hok2 happ
      dsimp only at hok2 happ
      obtain ⟨hA1, hB1⟩ := ih
          { t with staging_dir := t.working_dir,
                   operations := t.operations ++
                     [⟨"modify", joinPath t.working_dir rel,
                       some (joinPath t.backup_dir rel), some c⟩] }
          ((fs.set (joinPath t.backup_dir rel) c0).set
            (joinPath t.working_dir rel) c)
          hact rfl hsep hok2 hnd2 t1 fs1 happ
      dsimp only at hA1 hB1
      obtain ⟨t1y, fs1y, l2, happy, ht1y, hwf2, hframe2⟩ :=
        applyReqs_cases rest
          { t with staging_dir := t.working_dir,
                   operations := t.operations ++
                     [⟨"modify", joinPath t.working_dir rel,
                       some (joinPath t.backup_dir rel), some c⟩] }
          ((fs.set (joinPath t.backup_dir rel) c0).set
            (joinPath t.working_dir rel) c) hact
      rw [happ] at happy
      obtain ⟨he1, he2⟩ := except_ok_pair happy
      subst he1; subst he2
      have hops1 : t1.operations =
          t.operations ++
            ([⟨"modify", joinPath t.working_dir rel,
               some (joinPath t.backup_dir rel), some c⟩] ++ l2) := by
        rw [ht1y]
        dsimp only
        rw [List.append_assoc]
      have hdropOuter : List.drop t.operations.length t1.operations =
          [⟨"modify", joinPath t.working_dir rel,
            some (joinPath t.backup_dir rel), some c⟩] ++ l2 := by
        rw [hops1]
        exact List.drop_left _ _
      have hdropInner : List.drop (t.operations ++
            [(⟨"modify", joinPath t.working_dir rel,
               some (joinPath t.backup_dir rel), some c⟩ :
              FileOperation)]).length t1.operations = l2 := by
        rw [ht1y]
        dsimp only
        exact List.drop_left _ _
      rw [hdropInner] at hA1 hB1
      rw [hdropOuter]
      rw [List.reverse_append, List.reverse_cons, List.reverse_nil,
        List.nil_append, List.foldl_append, List.foldl_cons, List.foldl_nil]
      have hnwb0 : joinPath t.working_dir rel ≠ joinPath t.backup_dir rel :=
        joinPath_ne_of_separate _ _ hsep rel rel
      have hbackup : ((List.foldl (fun a op => op.rollbackFS a) fs1
          l2.reverse)).get (joinPath t.backup_dir rel) = some c0 := by
        rw [hB1 rel hnmem, FS.get_set_ne _ _ _ c hnwb0]
        exact FS.get_set_self fs _ c0
      rw [rollbackFS_restore_eq "modify" (Or.inl rfl) _ _ _ _ c0 hbackup]
      constructor
      · intro rel0
        by_cases hr : rel0 = rel
        · subst hr
          rw [FS.get_set_self, hget]
        · have hner : joinPath t.working_dir rel ≠ joinPath t.working_dir rel0 :=
            fun hc => hr (joinPath_inj _ _ _ hc).symm
          have hnbw : joinPath t.backup_dir rel ≠ joinPath t.working_dir rel0 :=
            joinPath_ne_of_separate _ _ hsepBW rel rel0
          rw [FS.get_set_ne _ _ _ c0 hner, hA1 rel0,
            FS.get_set_ne _ _ _ c hner, FS.get_set_ne _ _ _ c0 hnbw]
      · intro rel0 hmem0
        rw [List.map_cons, List.mem_cons] at hmem0
        push_neg at hmem0
        dsimp only [Req.rel] at hmem0
        have hnwb : joinPath t.working_dir rel ≠ joinPath t.backup_dir rel0 :=
          joinPath_ne_of_separate _ _ hsep rel rel0
        have hnbb : joinPath t.backup_dir rel ≠ joinPath t.backup_dir rel0 :=
          fun hc => hmem0.1 (joinPath_inj _ _ _ hc).symm
        rw [FS.get_set_ne _ _ _ c0 hnwb, hB1 rel0 hmem0.2,
          FS.get_set_ne _ _ _ c hnwb, FS.get_set_ne _ _ _ c0 hnbb]
    | deleteF rel =>
      cases hget : fs.get (joinPath t.staging_dir rel) with
      | none =>
        have heq := Transaction.delete_file_eq_none t fs rel hact hget
        rw [applyReqs] at happ
        simp only [applyReq] at hok2 happ
        rw [heq] at hok2 happ
        dsimp only at hok2 happ
        obtain ⟨hA1, hB1⟩ := ih t fs hact hsw hsep hok2 hnd2 t1 fs1 happ
        refine ⟨hA1, fun rel0 hmem0 => hB1 rel0 ?_⟩
        rw [List.map_cons, List.mem_cons] at hmem0
        push_neg at hmem0
        exact hmem0.2
      | some c0 =>
        have heq := Transaction.delete_file_eq_some t fs rel c0 hact hget
        rw [hsw] at heq
        have hgetw : fs.get (joinPath t.working_dir rel) = some c0 := by
          rw [← hsw]; exact hget
        dsimp only [Req.rel] at hnmem
        rw [applyReqs] at happ
        simp only [applyReq] at hok2 happ
        rw [heq] at hok2 happ
        dsimp only at hok2 happ
        obtain ⟨hA1, hB1⟩ := ih
            { t with staging_dir := t.working_dir,
                     operations := t.operations ++
                       [⟨"delete", joinPath t.working_dir rel,
                         some (joinPath t.backup_dir rel), none⟩] }
            ((fs.set (joinPath t.backup_dir rel) c0).del
              (joinPath t.working_dir rel))
            hact rfl hsep hok2 hnd2 t1 fs1 happ
        dsimp only at hA1 hB1
        obtain ⟨t1y, fs1y, l2, happy, ht1y, hwf2, hframe2⟩ :=
          applyReqs_cases rest
            { t with staging_dir := t.working_dir,
                     operations := t.operations ++
                       [⟨"delete", joinPath t.working_dir rel,
                         some (joinPath t.backup_dir rel), none⟩] }
            ((fs.set (joinPath t.backup_dir rel) c0).del
              (joinPath t.working_dir rel)) hact
        rw [happ] at happy
        obtain ⟨he1, he2⟩ := except_ok_pair happy
        subst he1; subst he2
        have hops1 : t1.operations =
            t.operations ++
              ([⟨"delete", joinPath t.working_dir rel,
                 some (joinPath t.backup_dir rel), none⟩] ++ l2) := by
          rw [ht1y]
          dsimp only
          rw [List.append_assoc]
        have hdropOuter : List.drop t.operations.length t1.operations =
            [⟨"delete", joinPath t.working_dir rel,
              some (joinPath t.backup_dir rel), none⟩] ++ l2 := by
          rw [hops1]
          exact List.drop_left _ _
        have hdropInner : List.drop (t.operations ++
              [(⟨"delete", joinPath t.working_dir rel,
                 some (joinPath t.backup_dir rel), none⟩ :
                FileOperation)]).length t1.operations = l2 := by
          rw [ht1y]
          dsimp only
          exact List.drop_left _ _
        rw [hdropInner] at hA1 hB1
        rw [hdropOuter]
        rw [List.reverse_append, List.reverse_cons, List.reverse_nil,
          List.nil_append, List.foldl_append, List.foldl_cons, List.foldl_nil]
        have hnwb0 : joinPath t.working_dir rel ≠ joinPath t.backup_dir rel :=
          joinPath_ne_of_separate _ _ hsep rel rel
        have hbackup : ((List.foldl (fun a op => op.rollbackFS a) fs1
            l2.reverse)).get (joinPath t.backup_dir rel) = some c0 := by
          rw [hB1 rel hnmem, FS.get_del_ne _ _ _ hnwb0]
          exact FS.get_set_self fs _ c0
        rw [rollbackFS_restore_eq "delete" (Or.inr rfl) _ _ _ _ c0 hbackup]
        constructor
        · intro rel0
          by_cases hr : rel0 = rel
          · subst hr
            rw [FS.get_set_self, hgetw]
          · have hner : joinPath t.working_dir rel ≠
                joinPath t.working_dir rel0 :=
              fun hc => hr (joinPath_inj _ _ _ hc).symm
            have hnbw : joinPath t.backup_dir rel ≠
                joinPath t.working_dir rel0 :=
              joinPath_ne_of_separate _ _ hsepBW rel rel0
            rw [FS.get_set_ne _ _ _ c0 hner, hA1 rel0,
              FS.get_del_ne _ _ _ hner, FS.get_set_ne _ _ _ c0 hnbw]
        · intro rel0 hmem0
          rw [List.map_cons, List.mem_cons] at hmem0
          push_neg at hmem0
          dsimp only [Req.rel] at hmem0
          have hnwb : joinPath t.working_dir rel ≠ joinPath t.backup_dir rel0 :=
            joinPath_ne_of_separate _ _ hsep rel rel0
          have hnbb : joinPath t.backup_dir rel ≠ joinPath t.backup_dir rel0 :=
            fun hc => hmem0.1 (joinPath_inj _ _ _ hc).symm
          rw [FS.get_set_ne _ _ _ c0 hnwb, hB1 rel0 hmem0.2,
            FS.get_del_ne _ _ _ hnwb, FS.get_set_ne _ _ _ c0 hnbb]

/-- C3: for any sequence of create/modify/delete requests followed by a
forced rollback, the working directory is byte-identical to its state
before the transaction.  In staged mode (separate staging and backup
areas) this holds unconditionally; in direct mode it holds provided the
requests touch pairwise-distinct relative paths, every created file was
fresh and every modified file existed — the counterexample
(`c3_counterexample`) shows the unconditional direct-mode version in the
claim is false. -/
theorem c3_rollback_restores_working_dir :
    (∀ (wd sA bA : Path) (fs : FS) (reqs : List Req),
      SeparateDirs wd sA → SeparateDirs wd bA →
      ∀ t1 fs1,
        applyReqs ((Transaction.init wd true sA bA).enter) fs reqs =
          .ok (t1, fs1) →
        ∀ rel, ((t1.rollback fs1).2).get (joinPath wd rel)
             = fs.get (joinPath wd rel))
    ∧
    (∀ (wd sA bA : Path) (fs : FS) (reqs : List Req),
      SeparateDirs wd bA →
      reqsOK ((Transaction.init wd false sA bA).enter) fs reqs = true →
      (reqs.map Req.rel).Nodup →
      ∀ t1 fs1,
        applyReqs ((Transaction.init wd false sA bA).enter) fs reqs =
          .ok (t1, fs1) →
        ∀ rel, ((t1.rollback fs1).2).get (joinPath wd rel)
             = fs.get (joinPath wd rel)) := by
  constructor
  · intro wd sA bA fs reqs hsw hbw t1 fs1 happ rel
    exact rollback_staged_restores ((Transaction.init wd true sA bA).enter)
      fs reqs rfl rfl rfl hsw hbw t1 fs1 happ rel
  · intro wd sA bA fs reqs hsep hok hnd t1 fs1 happ rel
    obtain ⟨hA, hB⟩ := undo_applyReqs_direct reqs
      ((Transaction.init wd false sA bA).enter) fs rfl rfl hsep hok hnd
      t1 fs1 happ
    obtain ⟨t1x, fs1x, l, happx, ht1, hwf, hframe⟩ :=
      applyReqs_cases reqs ((Transaction.init wd false sA bA).enter) fs rfl
    rw [happ] at happx
    have hpair := except_ok_pair happx
    have he1 : t1 = t1x := hpair.1
    subst he1
    rw [Transaction.rollback,
      if_neg (by rw [ht1]; simp [Transaction.init, Transaction.enter])]
    have hnostage : t1.enable_staging = false := by rw [ht1]; rfl
    rw [hnostage]
    dsimp only [Bool.false_eq_true, if_false]
    have h0 := hA rel
    simp only [Transaction.init, Transaction.enter, List.length_nil,
      List.drop_zero] at h0
    exact h0

theorem c3_rollback_restores_working_dir_witness :
    (match applyReqs ((Transaction.init ["w"] true ["s"] ["b"]).enter)
        [(["w", "a"], "old")] [Req.createF ["x"] "new"] with
     | .ok (t1, fs1) => FS.get (t1.rollback fs1).2 ["w", "a"]
     | .error _ => none) = some "old" := by
  exact c3_rollback_restores_working_dir.1 ["w"] ["s"] ["b"]
    [(["w", "a"], "old")] [Req.createF ["x"] "new"] (by decide) (by decide)
    _ _ rfl ["a"]

/-- C3 counterexample: in direct (no-staging) mode, `CreateFile` on a path
that already existed records a plain create operation with no backup, so
rollback deletes the file instead of restoring its old content: the claim
as stated is false. -/
theorem c3_counterexample :
    ¬ ((applyReqs ((Transaction.init ["w"] false ["s"] ["b"]).enter)
        [(["w", "a"], "old")] [Req.createF ["a"] "new"]).toOption.map
      (fun r => FS.get (r.1.rollback r.2).2 ["w", "a"]) =
      some (FS.get [(["w", "a"], "old")] ["w", "a"])) := by decide

/-- C6 (code bug): committing twice does not warn-and-return; the first
commit clears `active`, and `commit` checks `active` before the
already-committed flag, so the second call raises
`RuntimeError("Transaction not active")`. -/
theorem c6_commit_twice_raises :
    (match ((Transaction.init ["w"] true ["s"] ["b"]).enter).commit [] with
     | .ok (t1, fs1) => t1.commit fs1
     | .error e => .error e) = .error "Transaction not active" := rfl

/-- C10: `delete_file` on a path absent from the staging root is a silent
no-op: it returns normally, deletes nothing, and records no
`FileOperation` (the returned transaction and filesystem are unchanged). -/
theorem c10_delete_missing_is_noop (t : Transaction) (fs : FS) (rel : Path)
    (hact : t.active = true)
    (hget : fs.get (joinPath t.staging_dir rel) = none) :
    t.delete_file fs rel = .ok (t, fs) :=
  Transaction.delete_file_eq_none t fs rel hact hget

theorem c10_delete_missing_is_noop_witness :
    ((Transaction.init ["w"] true ["s"] ["b"]).enter).delete_file []
        ["x"] =
      .ok ((Transaction.init ["w"] true ["s"] ["b"]).enter, []) :=
  c10_delete_missing_is_noop _ _ _ rfl rfl

/-! Agent execution runtime, from `agent_runtime.py` and `models.py`.
Python `datetime` values are natural numbers (seconds); input snapshots
(`input_data.model_dump()`) are opaque strings. -/

/-- The structured content of an agent's output (`output_data`), carrying
exactly the fields the orchestrator reads back: `SafetyCheck`,
`PlanResult`, `ArchitectResult`, `CodeOutput`, test results, `DocOutput`
and `GitResult` (blue-collar scores as rounded integers). -/
inductive OutputData where
  | safety (approved : Bool) (warnings : List String) (blocked : List String)
  | plan (taskCount : Nat) (complexity : String)
  | design (projectName : String) (blueCollarScore : Nat)
  | code (filesCreated : Nat)
  | test (passed : Nat) (total : Nat)
  | docs (fileCount : Nat)
  | git
deriving DecidableEq, Repr

/-- AgentRun, from `models.py` lines 137-154: the record of one agent
execution. -/
structure AgentRun where
  agent_name : String
  input_data : String
  output_data : Option OutputData := none
  status : String := "pending"
  started_at : Nat
  completed_at : Option Nat := none
  error : Option String := none
  duration_seconds : Option Nat := none
deriving DecidableEq, Repr

instance {e a : Type} [DecidableEq e] [DecidableEq a] :
    DecidableEq (Except e a) := fun x y =>
  match x, y with
  | .error e1, .error e2 =>
    if h : e1 = e2 then .isTrue (by rw [h])
    else .isFalse (fun hc => h (Except.error.inj hc))
  | .error _, .ok _ => .isFalse (fun hc => Except.noConfusion hc)
  | .ok _, .error _ => .isFalse (fun hc => Except.noConfusion hc)
  | .ok a1, .ok a2 =>
    if h : a1 = a2 then .isTrue (by rw [h])
    else .isFalse (fun hc => h (Except.ok.inj hc))

/-- The behaviour of one registered agent on a call: `execute` either
returns an output or raises an error, and takes `duration` seconds of
wall-clock time. -/
structure AgentBehavior where
  result : Except String OutputData
  duration : Nat
deriving DecidableEq, Repr

/-- AgentRuntime state, from `agent_runtime.py` lines 107-110: the agent
registry and the execution ledger. -/
structure AgentRuntime where
  agents : List (String × AgentBehavior)
  execution_history : List AgentRun
deriving DecidableEq, Repr

/-- Default timeout for agent execution, `agent_runtime.py` line 21. -/
def DEFAULT_TIMEOUT_SECONDS : Nat := 300

/-- Modelled from the spec: `AgentTimeoutError` is imported from
`code_factory.core.models` but its definition is missing from the source
tree; per the spec the timeout error text carries the agent name and the
configured timeout bound. -/
def agentTimeoutMessage (agent_name : String) (timeout_seconds : Nat) :
    String :=
  "Agent '" ++ agent_name ++ "' timed out after " ++
    toString timeout_seconds ++ " seconds"

namespace AgentRuntime

/-- AgentRuntime.get_agent, `agent_runtime.py` lines 128-138. -/
def get_agent (rt : AgentRuntime) (name : String) : Option AgentBehavior :=
  (rt.agents.find? (fun e => e.1 == name)).map (fun e => e.2)

/-- AgentRuntime.execute_agent, `agent_runtime.py` lines 149-255, with
`now` the clock at call entry.  When the agent is unregistered a failed
record is returned without touching the ledger (lines 169-179).
Otherwise the worker thread is joined with the timeout
(`timeout_seconds` defaulting to 300, lines 181-183); the call is
reported timed out exactly when the agent runs strictly longer than the
timeout, in which case status is "failed", the error is the TIMEOUT
message and `duration_seconds` is the configured timeout (lines 211-229);
otherwise the agent's own error or output is recorded (lines 231-252).
The record is appended to the ledger (line 254). -/
def execute_agent (rt : AgentRuntime) (agent_name : String)
    (input_data : String) (timeout_seconds : Option Nat) (now : Nat) :
    AgentRuntime × AgentRun :=
  match rt.get_agent agent_name with
  | none =>
    (rt,
     { agent_name := agent_name, input_data := input_data,
       status := "failed",
       started_at := now, completed_at := some now,
       error := some ("Agent '" ++ agent_name ++ "' not found") })
  | some agent =>
    let timeout := timeout_seconds.getD DEFAULT_TIMEOUT_SECONDS
    let base : AgentRun :=
      { agent_name := agent_name, input_data := input_data,
        status := "running", started_at := now }
    let run :=
      if timeout < agent.duration then
        { base with
          status := "failed"
          error := some ("TIMEOUT: " ++ agentTimeoutMessage agent_name timeout)
          completed_at := some (now + timeout)
          duration_seconds := some timeout }
      else
        match agent.result with
        | .error e =>
          { base with
            status := "failed"
            error := some e
            completed_at := some (now + agent.duration)
            duration_seconds := some agent.duration }
        | .ok output =>
          { base with
            status := "success"
            output_data := some output
            completed_at := some (now + agent.duration)
            duration_seconds := some agent.duration }
    ({ rt with execution_history := rt.execution_history ++ [run] }, run)

/-- AgentRuntime.get_execution_history, `agent_runtime.py` lines 257-264
(the defensive copy is identity under value semantics). -/
def get_execution_history (rt : AgentRuntime) : List AgentRun :=
  rt.execution_history

theorem execute_agent_agents (rt : AgentRuntime) (n i : String)
    (tmo : Option Nat) (now : Nat) :
    (rt.execute_agent n i tmo now).1.agents = rt.agents := by
  cases hg : rt.get_agent n <;> simp [execute_agent, hg]

theorem get_agent_congr (rt1 rt2 : AgentRuntime) (n : String)
    (h : rt1.agents = rt2.agents) : rt1.get_agent n = rt2.get_agent n := by
  rw [get_agent, get_agent, h]

theorem execute_agent_history_none (rt : AgentRuntime) (n i : String)
    (tmo : Option Nat) (now : Nat) (hg : rt.get_agent n = none) :
    (rt.execute_agent n i tmo now).1 = rt := by
  simp [execute_agent, hg]

theorem execute_agent_history_some (rt : AgentRuntime) (n i : String)
    (tmo : Option Nat) (now : Nat) (a : AgentBehavior)
    (hg : rt.get_agent n = some a) :
    (rt.execute_agent n i tmo now).1.execution_history =
      rt.execution_history ++ [(rt.execute_agent n i tmo now).2] := by
  simp [execute_agent, hg]

end AgentRuntime

/-- One requested runtime call: agent name, input snapshot, optional
timeout, and the clock at call entry. -/
structure CallSpec where
  name : String
  input : String
  timeout : Option Nat
  now : Nat
deriving DecidableEq, Repr

/-- Issue a sequence of `execute_agent` calls. -/
def runCalls (rt : AgentRuntime) : List CallSpec → AgentRuntime
  | [] => rt
  | c :: rest =>
    runCalls (rt.execute_agent c.name c.input c.timeout c.now).1 rest

/-- C1 (amended): a call on a registered agent appends exactly one record
to the ledger (in call order); a call naming an unregistered agent
returns a failed record without appending, so after a call sequence the
ledger has grown by the number of calls that named registered agents (not
by the total number of calls). -/
theorem c1_ledger_growth (rt : AgentRuntime) (calls : List CallSpec) :
    (runCalls rt calls).execution_history.length =
      rt.execution_history.length +
        calls.countP (fun c => (rt.get_agent c.name).isSome) ∧
    rt.execution_history <+: (runCalls rt calls).execution_history := by
  induction calls generalizing rt with
  | nil => exact ⟨rfl, List.prefix_refl _⟩
  | cons c rest ih =>
    rw [runCalls, List.countP_cons]
    obtain ⟨ihlen, ihpre⟩ :=
      ih (rt.execute_agent c.name c.input c.timeout c.now).1
    have hagents := AgentRuntime.execute_agent_agents rt c.name c.input
      c.timeout c.now
    have hcount : List.countP (fun x =>
        (((rt.execute_agent c.name c.input c.timeout
            c.now).1).get_agent x.name).isSome) rest =
        List.countP (fun x => (rt.get_agent x.name).isSome) rest :=
      List.countP_congr (fun x _ => by
        rw [AgentRuntime.get_agent_congr _ _ x.name hagents])
    rw [hcount] at ihlen
    cases hg : rt.get_agent c.name with
    | none =>
      have hid := AgentRuntime.execute_agent_history_none rt c.name c.input
        c.timeout c.now hg
      rw [hid]
      rw [hid] at ihlen ihpre
      refine ⟨?_, ihpre⟩
      rw [ihlen]
      simp
    | some a =>
      have happ := AgentRuntime.execute_agent_history_some rt c.name c.input
        c.timeout c.now a hg
      refine ⟨?_, ?_⟩
      · rw [ihlen, happ, List.length_append]
        simp only [Option.isSome_some, if_true, List.length_singleton]
        omega
      · exact List.IsPrefix.trans ⟨_, happ.symm⟩ ihpre

theorem c1_ledger_growth_witness :
    (runCalls (AgentRuntime.mk [("ok", ⟨Except.ok OutputData.git, 1⟩)] [])
        [⟨"ok", "i", none, 0⟩, ⟨"ghost", "i", none, 1⟩]).execution_history.length
      = 1 :=
  (c1_ledger_growth (AgentRuntime.mk [("ok", ⟨Except.ok OutputData.git, 1⟩)] [])
    [⟨"ok", "i", none, 0⟩, ⟨"ghost", "i", none, 1⟩]).1

/-- C1 counterexample: a call naming an unregistered agent does not append
to the ledger: after one such call on a fresh runtime the ledger length is
0, not 1 (`execute_agent` returns at line 173 before the append at 254). -/
theorem c1_counterexample :
    ¬ ((AgentRuntime.mk [] []).execute_agent "ghost" "i" none
        0).1.execution_history.length = 1 := by decide

/-- C2 (amended): when a registered agent runs strictly longer than the
configured timeout, the returned record has status "failed" (not
"timed_out"), its error is the TIMEOUT message naming the agent and the
timeout bound, its `duration_seconds` is the configured timeout, and its
completion time is the call entry time plus the timeout (not the agent's
own duration). -/
theorem c2_timeout_record (rt : AgentRuntime) (name input : String)
    (t now : Nat) (a : AgentBehavior)
    (hg : rt.get_agent name = some a) (hlt : t < a.duration) :
    ((rt.execute_agent name input (some t) now).2).status = "failed" ∧
    ((rt.execute_agent name input (some t) now).2).error =
      some ("TIMEOUT: " ++ agentTimeoutMessage name t) ∧
    ((rt.execute_agent name input (some t) now).2).duration_seconds =
      some t ∧
    ((rt.execute_agent name input (some t) now).2).completed_at =
      some (now + t) := by
  simp [AgentRuntime.execute_agent, hg, hlt]

theorem c2_timeout_record_witness :
    ((AgentRuntime.mk [("slow", ⟨Except.ok OutputData.git, 10⟩)]
        []).execute_agent "slow" "i" (some 1) 0).2.error =
      some "TIMEOUT: Agent 'slow' timed out after 1 seconds" :=
  (c2_timeout_record (AgentRuntime.mk
    [("slow", ⟨Except.ok OutputData.git, 10⟩)] []) "slow" "i" 1 0
    ⟨Except.ok OutputData.git, 10⟩ rfl (by decide)).2.1

/-- C2 counterexample: the timed-out record's status is the string
"failed", not "timed_out" (`agent_runtime.py` line 222). -/
theorem c2_counterexample :
    ¬ (((AgentRuntime.mk [("slow", ⟨Except.ok OutputData.git, 10⟩)]
        []).execute_agent "slow" "i" (some 1) 0).2.status = "timed_out") := by
  decide

/-- C7 (amended): a `None` timeout does not mean "no deadline" — it
selects the 300-second default; and a timeout of zero is a real
zero-second deadline: any registered agent taking positive time is
reported timed out, and only an instantaneous agent (duration 0) has its
natural result recorded. -/
theorem c7_zero_and_none_timeouts (rt : AgentRuntime) (name input : String)
    (now : Nat) (a : AgentBehavior) (hg : rt.get_agent name = some a) :
    rt.execute_agent name input none now =
      rt.execute_agent name input (some DEFAULT_TIMEOUT_SECONDS) now ∧
    (0 < a.duration →
      ((rt.execute_agent name input (some 0) now).2).status = "failed" ∧
      ((rt.execute_agent name input (some 0) now).2).error =
        some ("TIMEOUT: " ++ agentTimeoutMessage name 0)) ∧
    (a.duration = 0 →
      ((rt.execute_agent name input (some 0) now).2).status =
        match a.result with
        | .ok _ => "success"
        | .error _ => "failed") := by
  refine ⟨rfl, ?_, ?_⟩
  · intro hpos
    constructor <;> simp [AgentRuntime.execute_agent, hg, hpos]
  · intro hzero
    cases hr : a.result with
    | ok o => simp [AgentRuntime.execute_agent, hg, hzero, hr]
    | error e => simp [AgentRuntime.execute_agent, hg, hzero, hr]

theorem c7_zero_and_none_timeouts_witness :
    ((AgentRuntime.mk [("quick", ⟨Except.ok OutputData.git, 1⟩)]
        []).execute_agent "quick" "i" (some 0) 0).2.status = "failed" :=
  ((c7_zero_and_none_timeouts (AgentRuntime.mk
      [("quick", ⟨Except.ok OutputData.git, 1⟩)] []) "quick" "i" 0
      ⟨Except.ok OutputData.git, 1⟩ rfl).2.1 (by decide)).1

/-- C7 counterexample: with a timeout of zero, an agent that takes one
second and would succeed is reported as a timeout failure rather than
awaited to natural completion. -/
theorem c7_counterexample :
    ¬ (((AgentRuntime.mk [("quick", ⟨Except.ok OutputData.git, 1⟩)]
        []).execute_agent "quick" "i" (some 0) 0).2.status = "success") := by
  decide

/-! Checkpoint manager, from `checkpoint.py` together with the `Idea`
model of `models.py`.  The per-project checkpoint directory is a finite
map from file names to serialized records; timestamps are natural
numbers, and the `isoformat`/`fromisoformat` and `str`/`Path` round
trips of the serialization are the identity in the model. -/

/-- Idea, `models.py` lines 33-64. -/
structure Idea where
  description : String
  target_users : List String
  environment : Option String
  features : List String
  constraints : List String
deriving DecidableEq, Repr

/-- Python `str.strip()`: drop leading and trailing whitespace. -/
def pyStrip (s : String) : String :=
  ⟨((s.data.dropWhile Char.isWhitespace).reverse.dropWhile
      Char.isWhitespace).reverse⟩

/-- The description validator (`models.py` lines 59-64): an empty or
all-whitespace description is rejected, otherwise it is stripped. -/
def Idea.validate (i : Idea) : Except String Idea :=
  if pyStrip i.description = "" then .error "Description cannot be empty"
  else .ok { i with description := pyStrip i.description }

/-- Checkpoint, `checkpoint.py` lines 19-40. -/
structure Checkpoint where
  stage_name : String
  idea : Idea
  completed_runs : List AgentRun
  project_path : Option Path
  metadata : List (String × String)
  timestamp : Nat
  checkpoint_id : String
deriving DecidableEq, Repr

/-- Checkpoint.__init__ (`checkpoint.py` lines 26-40): stamps the current
time and derives the id from the stage name and the formatted time. -/
def Checkpoint.make (stage_name : String) (idea : Idea)
    (completed_runs : List AgentRun) (project_path : Option Path)
    (metadata : List (String × String)) (now : Nat) : Checkpoint :=
  { stage_name := stage_name
    idea := idea
    completed_runs := completed_runs
    project_path := project_path
    metadata := metadata
    timestamp := now
    checkpoint_id := stage_name ++ "_" ++ toString now }

/-- The serialized (JSON) form of a checkpoint, `Checkpoint.to_dict`
(`checkpoint.py` lines 42-52). -/
structure CkDict where
  checkpoint_id : String
  stage_name : String
  timestamp : Nat
  idea : Idea
  completed_runs : List AgentRun
  project_path : Option Path
  metadata : List (String × String)
deriving DecidableEq, Repr

/-- Checkpoint.to_dict, `checkpoint.py` lines 42-52. -/
def Checkpoint.to_dict (c : Checkpoint) : CkDict :=
  { checkpoint_id := c.checkpoint_id
    stage_name := c.stage_name
    timestamp := c.timestamp
    idea := c.idea
    completed_runs := c.completed_runs
    project_path := c.project_path
    metadata := c.metadata }

/-- Checkpoint.from_dict, `checkpoint.py` lines 54-66: reconstructs the
checkpoint (revalidating the idea via `Idea(**...)`) and then restores
the original `checkpoint_id` and `timestamp` fields. -/
def Checkpoint.from_dict (d : CkDict) : Except String Checkpoint :=
  match d.idea.validate with
  | .error e => .error e
  | .ok idea =>
    .ok { stage_name := d.stage_name
          idea := idea
          completed_runs := d.completed_runs
          project_path := d.project_path
          metadata := d.metadata
          timestamp := d.timestamp
          checkpoint_id := d.checkpoint_id }

/-- The per-project checkpoint directory: file name to record contents. -/
abbrev CkStore := List (String × CkDict)

namespace CkStore

/-- Read the record stored under `name`, if any. -/
def read (s : CkStore) (name : String) : Option CkDict :=
  match s with
  | [] => none
  | (n, d) :: rest => if n = name then some d else read rest name

/-- Write (create or overwrite in place) the record under `name`. -/
def write (s : CkStore) (name : String) (d : CkDict) : CkStore :=
  match s with
  | [] => [(name, d)]
  | (n, e) :: rest =>
    if n = name then (n, d) :: rest else (n, e) :: write rest name d

/-- Delete the record under `name` (`Path.unlink`). -/
def remove (s : CkStore) (name : String) : CkStore :=
  match s with
  | [] => []
  | (n, e) :: rest =>
    if n = name then remove rest name else (n, e) :: remove rest name

theorem read_write_self (s : CkStore) (name : String) (d : CkDict) :
    (s.write name d).read name = some d := by
  induction s with
  | nil => simp [write, read]
  | cons e rest ih =>
    obtain ⟨n, dd⟩ := e
    by_cases h : n = name
    · rw [write, if_pos h, read, if_pos h]
    · rw [write, if_neg h, read, if_neg h]; exact ih

theorem read_write_ne (s : CkStore) (name name2 : String) (d : CkDict)
    (h : name ≠ name2) : (s.write name d).read name2 = s.read name2 := by
  induction s with
  | nil => simp [write, read, h]
  | cons e rest ih =>
    obtain ⟨n, dd⟩ := e
    by_cases h1 : n = name
    · have h2 : ¬ n = name2 := by rw [h1]; exact h
      rw [write, if_pos h1, read, if_neg h2, read, if_neg h2]
    · by_cases h2 : n = name2
      · rw [write, if_neg h1, read, if_pos h2, read, if_pos h2]
      · rw [write, if_neg h1, read, if_neg h2, read, if_neg h2]; exact ih

theorem read_remove_self (s : CkStore) (name : String) :
    (s.remove name).read name = none := by
  induction s with
  | nil => rfl
  | cons e rest ih =>
    obtain ⟨n, dd⟩ := e
    by_cases h : n = name
    · rw [remove, if_pos h]; exact ih
    · rw [remove, if_neg h, read, if_neg h]; exact ih

theorem read_remove_ne (s : CkStore) (name name2 : String) (h : name ≠ name2) :
    (s.remove name).read name2 = s.read name2 := by
  induction s with
  | nil => rfl
  | cons e rest ih =>
    obtain ⟨n, dd⟩ := e
    by_cases h1 : n = name
    · have h2 : ¬ n = name2 := by rw [h1]; exact h
      rw [remove, if_pos h1, read, if_neg h2]; exact ih
    · by_cases h2 : n = name2
      · rw [remove, if_neg h1, read, if_pos h2, read, if_pos h2]
      · rw [remove, if_neg h1, read, if_neg h2, read, if_neg h2]; exact ih

theorem read_of_mem (s : CkStore) (n : String) (d : CkDict)
    (hnd : (s.map Prod.fst).Nodup) (hmem : (n, d) ∈ s) :
    s.read n = some d := by
  induction s with
  | nil => cases hmem
  | cons e rest ih =>
    obtain ⟨n1, d1⟩ := e
    rw [List.map_cons, List.nodup_cons] at hnd
    rcases List.mem_cons.mp hmem with h | h
    · obtain ⟨he1, he2⟩ := Prod.mk.inj h
      rw [read, if_pos he1.symm, he2]
    · have hne : ¬ n1 = n := by
        intro hc
        exact hnd.1 (hc ▸ (List.mem_map.mpr ⟨(n, d), h, rfl⟩))
      rw [read, if_neg hne]
      exact ih hnd.2 h

end CkStore

/-- CheckpointManager.save_checkpoint (`checkpoint.py` lines 91-138):
builds the checkpoint, writes its uniquely named record, then overwrites
the well-known `latest.json` record with the same content; `now` models
`datetime.now()` at the call. -/
def save_checkpoint (store : CkStore) (stage_name : String) (idea : Idea)
    (completed_runs : List AgentRun) (project_path : Option Path)
    (metadata : List (String × String)) (now : Nat) : Checkpoint × CkStore :=
  let c := Checkpoint.make stage_name idea completed_runs project_path
    metadata now
  let store := store.write (c.checkpoint_id ++ ".json") c.to_dict
  let store := store.write "latest.json" c.to_dict
  (c, store)

/-- CheckpointManager.load_checkpoint (`checkpoint.py` lines 140-173):
loads the named record, or `latest.json` when no id is given; a missing
file or a deserialization error yields `none`. -/
def load_checkpoint (store : CkStore) (checkpoint_id : Option String) :
    Option Checkpoint :=
  let fname :=
    match checkpoint_id with
    | some cid => cid ++ ".json"
    | none => "latest.json"
  match store.read fname with
  | none => none
  | some d =>
    match Checkpoint.from_dict d with
    | .ok c => some c
    | .error _ => none

/-- CheckpointManager.list_checkpoints (`checkpoint.py` lines 175-205):
every record except `latest.json`, sorted newest first by timestamp
(a stable sort, as Python's `list.sort(reverse=True)`). -/
def list_checkpoints (store : CkStore) : List CkDict :=
  List.mergeSort
    ((store.filter (fun e => ¬ e.1 = "latest.json")).map (fun e => e.2))
    (fun a b => b.timestamp ≤ a.timestamp)

/-- CheckpointManager.delete_checkpoint (`checkpoint.py` lines 207-231):
removes the record file for the id, reporting whether it existed. -/
def delete_checkpoint (store : CkStore) (cid : String) : Bool × CkStore :=
  match store.read (cid ++ ".json") with
  | none => (false, store)
  | some _ => (true, store.remove (cid ++ ".json"))

/-- CheckpointManager.cleanup_old_checkpoints (`checkpoint.py` lines
233-260): keeps the `keep_count` most recent checkpoints, deleting the
rest and counting successful deletions. -/
def cleanup_old_checkpoints (store : CkStore) (keep_count : Nat) :
    Nat × CkStore :=
  let cks := list_checkpoints store
  if cks.length ≤ keep_count then (0, store)
  else
    (cks.drop keep_count).foldl
      (fun acc ck =>
        let r := delete_checkpoint acc.2 ck.checkpoint_id
        (if r.1 then acc.1 + 1 else acc.1, r.2))
      (0, store)

theorem checkpoint_id_ne_latest (stage : String) (now : Nat) :
    stage ++ "_" ++ toString now ≠ "latest" := by
  intro h
  have hmem : '_' ∈ (stage ++ "_" ++ toString now).data := by
    rw [String.data_append, String.data_append]
    refine List.mem_append.mpr (Or.inl (List.mem_append.mpr (Or.inr ?_)))
    decide
  rw [h] at hmem
  revert hmem
  decide

theorem ckfile_inj (a b : String) (h : a ++ ".json" = b ++ ".json") :
    a = b := by
  have hd : (a ++ ".json").data = (b ++ ".json").data := by rw [h]
  rw [String.data_append, String.data_append] at hd
  exact String.ext (List.append_left_injective _ hd)

theorem ckfile_ne_latest (stage : String) (now : Nat) :
    stage ++ "_" ++ toString now ++ ".json" ≠ "latest.json" := by
  intro h
  have hlj : ("latest.json" : String) = "latest" ++ ".json" := by decide
  rw [hlj] at h
  exact checkpoint_id_ne_latest stage now (ckfile_inj _ _ h)

theorem from_dict_to_dict (c : Checkpoint)
    (htrim : pyStrip c.idea.description = c.idea.description)
    (hne : c.idea.description ≠ "") :
    Checkpoint.from_dict c.to_dict = .ok c := by
  rw [Checkpoint.from_dict, Checkpoint.to_dict]
  dsimp only
  rw [Idea.validate, htrim, if_neg hne]

/-- C5: a save followed by a load of that checkpoint's id returns a
Checkpoint equal in all fields to the one saved, and a load with no id
returns the most recently saved one (a valid idea: non-empty, already
stripped description). -/
theorem c5_save_load_roundtrip (store : CkStore) (stage : String)
    (idea : Idea) (runs : List AgentRun) (pp : Option Path)
    (md : List (String × String)) (now : Nat)
    (htrim : pyStrip idea.description = idea.description)
    (hne : idea.description ≠ "") :
    load_checkpoint (save_checkpoint store stage idea runs pp md now).2
        (some (save_checkpoint store stage idea runs pp md
          now).1.checkpoint_id) =
      some (save_checkpoint store stage idea runs pp md now).1 ∧
    load_checkpoint (save_checkpoint store stage idea runs pp md now).2
        none =
      some (save_checkpoint store stage idea runs pp md now).1 := by
  have hfne : ("latest.json" : String) ≠
      stage ++ "_" ++ toString now ++ ".json" :=
    fun h => ckfile_ne_latest stage now h.symm
  have hround : Checkpoint.from_dict
      (Checkpoint.make stage idea runs pp md now).to_dict =
      .ok (Checkpoint.make stage idea runs pp md now) :=
    from_dict_to_dict _ htrim hne
  constructor
  · rw [save_checkpoint, load_checkpoint]
    dsimp only [Checkpoint.make]
    rw [CkStore.read_write_ne _ _ _ _ hfne, CkStore.read_write_self]
    dsimp only
    rw [show (Checkpoint.make stage idea runs pp md now).to_dict =
        Checkpoint.to_dict (Checkpoint.make stage idea runs pp md now)
      from rfl] at hround
    dsimp only [Checkpoint.make] at hround
    rw [hround]
  · rw [save_checkpoint, load_checkpoint]
    dsimp only [Checkpoint.make]
    rw [CkStore.read_write_self]
    dsimp only
    dsimp only [Checkpoint.make] at hround
    rw [hround]

theorem c5_save_load_roundtrip_witness :
    load_checkpoint
        (save_checkpoint [] "plan" ⟨"x", [], none, [], []⟩ [] none [] 5).2
        none =
      some (save_checkpoint [] "plan" ⟨"x", [], none, [], []⟩ [] none []
        5).1 :=
  (c5_save_load_roundtrip [] "plan" ⟨"x", [], none, [], []⟩ [] none [] 5
    (by decide) (by decide)).2

/-- A well-formed checkpoint directory: file names are unique, and every
record other than the latest pointer is stored under the file name
derived from its checkpoint id, as `save_checkpoint` maintains. -/
def StoreWF (store : CkStore) : Prop :=
  (store.map Prod.fst).Nodup ∧
  ∀ e ∈ store, e.1 ≠ "latest.json" → e.1 = e.2.checkpoint_id ++ ".json"

instance (store : CkStore) : Decidable (StoreWF store) := by
  unfold StoreWF; infer_instance

/-- Specification of the deletion loop of `cleanup_old_checkpoints`: with
pairwise-distinct ids that are all present, it deletes exactly the listed
records and counts each one. -/
theorem foldDelete_spec (L : List CkDict) :
    ∀ (store : CkStore) (acc : Nat),
    (L.map CkDict.checkpoint_id).Nodup →
    (∀ d ∈ L, (store.read (d.checkpoint_id ++ ".json")).isSome = true) →
    (L.foldl
        (fun acc ck =>
          let r := delete_checkpoint acc.2 ck.checkpoint_id
          (if r.1 then acc.1 + 1 else acc.1, r.2))
        (acc, store)).1 = acc + L.length ∧
    ∀ name,
      ((L.foldl
          (fun acc ck =>
            let r := delete_checkpoint acc.2 ck.checkpoint_id
            (if r.1 then acc.1 + 1 else acc.1, r.2))
          (acc, store)).2).read name =
        if ∃ d ∈ L, name = d.checkpoint_id ++ ".json" then none
        else store.read name := by
  induction L with
  | nil =>
    intro store acc hnd hp
    refine ⟨rfl, fun name => ?_⟩
    have hno : ¬ ∃ d ∈ ([] : List CkDict),
        name = d.checkpoint_id ++ ".json" := by
      rintro ⟨d, hd, _⟩
      cases hd
    rw [if_neg hno]
    rfl
  | cons d tail ih =>
    intro store acc hnd hp
    rw [List.map_cons, List.nodup_cons] at hnd
    obtain ⟨dd, hdd⟩ := Option.isSome_iff_exists.mp
      (hp d (List.mem_cons_self d tail))
    rw [List.foldl_cons]
    dsimp only
    rw [delete_checkpoint, hdd]
    dsimp only
    rw [if_pos (show (true : Bool) = true from rfl)]
    have hpres : ∀ e ∈ tail,
        (((store.remove (d.checkpoint_id ++ ".json"))).read
          (e.checkpoint_id ++ ".json")).isSome = true := by
      intro e he
      have hne : d.checkpoint_id ++ ".json" ≠ e.checkpoint_id ++ ".json" := by
        intro hc
        exact hnd.1 (ckfile_inj _ _ hc ▸
          List.mem_map.mpr ⟨e, he, rfl⟩)
      rw [CkStore.read_remove_ne _ _ _ hne]
      exact hp e (List.mem_cons_of_mem d he)
    obtain ⟨ihcount, ihread⟩ :=
      ih (store.remove (d.checkpoint_id ++ ".json")) (acc + 1) hnd.2 hpres
    refine ⟨by rw [ihcount, List.length_cons]; omega, fun name => ?_⟩
    rw [ihread name]
    by_cases hex : ∃ e ∈ tail, name = e.checkpoint_id ++ ".json"
    · rw [if_pos hex, if_pos]
      obtain ⟨e, he, hname⟩ := hex
      exact ⟨e, List.mem_cons_of_mem d he, hname⟩
    · rw [if_neg hex]
      by_cases hdn : name = d.checkpoint_id ++ ".json"
      · rw [hdn, CkStore.read_remove_self, if_pos]
        exact ⟨d, List.mem_cons_self d tail, rfl⟩
      · rw [CkStore.read_remove_ne _ _ _ (fun hc => hdn hc.symm), if_neg]
        rintro ⟨e, he, hname⟩
        rcases List.mem_cons.mp he with h | h
        · exact hdn (h ▸ hname)
        · exact hex ⟨e, h, hname⟩

/-- C9: for every keep count, `cleanup_old_checkpoints` deletes exactly
the records beyond the `keep` most recent (per the newest-first listing),
leaves every other record — including the `keep` newest and the synthetic
latest pointer — untouched, and returns the number deleted
(`max 0 (n - keep)` for `n` listed checkpoints). -/
theorem c9_prune_keeps_newest (store : CkStore) (keep : Nat)
    (hwf : StoreWF store) :
    (cleanup_old_checkpoints store keep).1 =
      (list_checkpoints store).length - keep ∧
    (∀ d ∈ (list_checkpoints store).drop keep,
      ((cleanup_old_checkpoints store keep).2).read
        (d.checkpoint_id ++ ".json") = none) ∧
    (∀ name, (¬ ∃ d ∈ (list_checkpoints store).drop keep,
        name = d.checkpoint_id ++ ".json") →
      ((cleanup_old_checkpoints store keep).2).read name =
        store.read name) := by
  by_cases hle : (list_checkpoints store).length ≤ keep
  · have hnil : (list_checkpoints store).drop keep = [] :=
      List.drop_eq_nil_of_le hle
    rw [cleanup_old_checkpoints]
    dsimp only
    rw [if_pos hle]
    refine ⟨by omega, ?_, fun name _ => rfl⟩
    intro d hd
    rw [hnil] at hd
    cases hd
  · -- ids of the listed checkpoints are pairwise distinct
    have hperm : List.Perm (list_checkpoints store)
        ((store.filter (fun e => ¬ e.1 = "latest.json")).map
          (fun e => e.2)) :=
      List.mergeSort_perm _ _
    have hkeysnd : ((store.filter
        (fun e => ¬ e.1 = "latest.json")).map Prod.fst).Nodup :=
      hwf.1.sublist (List.Sublist.map _ (List.filter_sublist store))
    have hmapeq : (store.filter
          (fun e => ¬ e.1 = "latest.json")).map Prod.fst =
        ((store.filter (fun e => ¬ e.1 = "latest.json")).map
          (fun e => e.2.checkpoint_id)).map (fun s => s ++ ".json") := by
      rw [List.map_map]
      refine List.map_congr_left (fun e he => ?_)
      obtain ⟨hmem, hcond⟩ := List.mem_filter.mp he
      exact hwf.2 e hmem (by simpa using hcond)
    have hidsnd : ((store.filter
        (fun e => ¬ e.1 = "latest.json")).map
          (fun e => e.2.checkpoint_id)).Nodup := by
      refine List.Nodup.of_map (fun s => s ++ ".json") ?_
      rw [← hmapeq]
      exact hkeysnd
    have hlistids : ((list_checkpoints store).map
        CkDict.checkpoint_id).Nodup := by
      refine (List.Perm.nodup_iff (List.Perm.map _ hperm)).mpr ?_
      rw [List.map_map]
      exact hidsnd
    have hdropids : (((list_checkpoints store).drop keep).map
        CkDict.checkpoint_id).Nodup :=
      hlistids.sublist (List.Sublist.map _ (List.drop_sublist _ _))
    have hpresent : ∀ d ∈ (list_checkpoints store).drop keep,
        ((store.read (d.checkpoint_id ++ ".json"))).isSome = true := by
      intro d hd
      have hd2 : d ∈ list_checkpoints store := List.drop_subset _ _ hd
      have hd3 := hperm.subset hd2
      obtain ⟨e, he, hee⟩ := List.mem_map.mp hd3
      obtain ⟨hmem, hcond⟩ := List.mem_filter.mp he
      have hkey : e.1 = d.checkpoint_id ++ ".json" := by
        rw [← hee]
        exact hwf.2 e hmem (by simpa using hcond)
      rw [← hkey, CkStore.read_of_mem store e.1 e.2 hwf.1 (by
        rw [show (e.1, e.2) = e from rfl]; exact hmem)]
      rfl
    obtain ⟨hcount, hread⟩ := foldDelete_spec
      ((list_checkpoints store).drop keep) store 0 hdropids hpresent
    rw [cleanup_old_checkpoints]
    dsimp only
    rw [if_neg hle]
    refine ⟨by rw [hcount, List.length_drop]; omega, ?_, ?_⟩
    · intro d hd
      rw [hread]
      exact if_pos ⟨d, hd, rfl⟩
    · intro name hnex
      rw [hread]
      exact if_neg hnex

theorem c9_prune_keeps_newest_witness :
    (cleanup_old_checkpoints
        [("a_1.json", ⟨"a_1", "a", 1, ⟨"x", [], none, [], []⟩, [], none, []⟩),
         ("a_2.json", ⟨"a_2", "a", 2, ⟨"x", [], none, [], []⟩, [], none, []⟩),
         ("a_3.json", ⟨"a_3", "a", 3, ⟨"x", [], none, [], []⟩, [], none, []⟩),
         ("a_4.json", ⟨"a_4", "a", 4, ⟨"x", [], none, [], []⟩, [], none, []⟩),
         ("a_5.json", ⟨"a_5", "a", 5, ⟨"x", [], none, [], []⟩, [], none, []⟩)]
        2).1 = 3 := by
  have h := (c9_prune_keeps_newest
    [("a_1.json", ⟨"a_1", "a", 1, ⟨"x", [], none, [], []⟩, [], none, []⟩),
     ("a_2.json", ⟨"a_2", "a", 2, ⟨"x", [], none, [], []⟩, [], none, []⟩),
     ("a_3.json", ⟨"a_3", "a", 3, ⟨"x", [], none, [], []⟩, [], none, []⟩),
     ("a_4.json", ⟨"a_4", "a", 4, ⟨"x", [], none, [], []⟩, [], none, []⟩),
     ("a_5.json", ⟨"a_5", "a", 5, ⟨"x", [], none, [], []⟩, [], none, []⟩)]
    2 (by decide)).1
  rw [h, list_checkpoints, (List.mergeSort_perm _ _).length_eq]
  decide

/-! Pipeline orchestrator, from `orchestrator.py`.  `run_factory` is
modelled as the sequence of primitive actions it performs on the
orchestrator state — ledger appends, checkpoint saves and result-field
updates — interpreted by `execStep`; control flow (which stages run,
which stage failures abort, how checkpoint-save exceptions propagate to
the top-level handler) is computed by `runFactorySteps` from the
registered agent behaviours and the durable-storage oracle. -/

/-- The orchestrator's mutable state during one `run_factory` call: the
live ledger `_completed_runs`, the checkpoints saved so far (most recent
last), the `ProjectResult` fields under assembly, and the count of
checkpoint-save attempts. -/
structure OrchState where
  completed_runs : List AgentRun
  saved : List Checkpoint
  result_runs : List AgentRun
  result_errors : List String
  result_success : Bool
  result_project_name : String
  result_project_path : Option Path
  saves : Nat
deriving Repr

/-- The state of a freshly constructed orchestrator and result
(`orchestrator.py` lines 60-94). -/
def OrchState.init : OrchState :=
  { completed_runs := []
    saved := []
    result_runs := []
    result_errors := []
    result_success := false
    result_project_name := ""
    result_project_path := none
    saves := 0 }

/-- One primitive state action of `run_factory`. -/
inductive OStep where
  | appendRun (run : AgentRun)
  | saveCk (stage : String) (project_path : Option Path)
      (metadata : List (String × String)) (ok : Bool) (now : Nat)
  | addError (msg : String)
  | setSuccess
  | setProjectName (name : String)
  | setProjectPath (p : Option Path)
deriving Repr

/-- Interpret one action.  `appendRun` models the paired
`result.agent_runs.append(run)` / `self._completed_runs.append(run)`
lines; `saveCk` models `Orchestrator.checkpoint` (lines 315-351), which
snapshots a copy of the live ledger into a new Checkpoint — or, when the
storage write fails, raises after incrementing the attempt count. -/
def execStep (idea : Idea) (s : OrchState) : OStep → OrchState
  | .appendRun run =>
    { s with
      completed_runs := s.completed_runs ++ [run]
      result_runs := s.result_runs ++ [run] }
  | .saveCk stage pp md ok now =>
    if ok then
      { s with
        saved :=
          s.saved ++ [Checkpoint.make stage idea s.completed_runs pp md now]
        saves := s.saves + 1 }
    else { s with saves := s.saves + 1 }
  | .addError m => { s with result_errors := s.result_errors ++ [m] }
  | .setSuccess => { s with result_success := true }
  | .setProjectName n => { s with result_project_name := n }
  | .setProjectPath p => { s with result_project_path := p }

/-- Interpret a sequence of actions. -/
def execSteps (idea : Idea) (s : OrchState) : List OStep → OrchState
  | [] => s
  | st :: rest => execSteps idea (execStep idea s st) rest

/-- The checkpoint-prefix invariant: the completed-runs snapshot in the
most recently saved Checkpoint is a prefix of the live ledger. -/
def CkInv (s : OrchState) : Prop :=
  ∀ ck, s.saved.getLast? = some ck →
    ck.completed_runs <+: s.completed_runs

theorem execStep_ckInv (idea : Idea) (s : OrchState) (st : OStep)
    (h : CkInv s) : CkInv (execStep idea s st) := by
  cases st with
  | appendRun run =>
    intro ck hck
    exact (h ck hck).trans ⟨[run], rfl⟩
  | saveCk stage pp md ok now =>
    intro ck hck
    rw [execStep] at hck ⊢
    by_cases hok : ok = true
    · rw [if_pos hok] at hck ⊢
      rw [List.getLast?_concat] at hck
      obtain rfl := Option.some_inj.mp hck
      exact List.prefix_refl _
    · rw [if_neg hok] at hck ⊢
      exact h ck hck
  | addError m => exact h
  | setSuccess => exact h
  | setProjectName n => exact h
  | setProjectPath p => exact h

theorem execSteps_ckInv (idea : Idea) (l : List OStep) :
    ∀ s : OrchState, CkInv s → CkInv (execSteps idea s l) := by
  induction l with
  | nil => exact fun s h => h
  | cons st rest ih =>
    intro s h
    exact ih _ (execStep_ckInv idea s st h)

/-- The environment of one factory run: the runtime with its registered
agent behaviours, and the durable-storage oracle telling whether the n-th
checkpoint-save attempt succeeds. -/
structure OrchEnv where
  runtime : AgentRuntime
  saveOk : Nat → Bool

/-- Python `str()` of an optional error field. -/
def errText : Option String → String
  | some e => e
  | none => "None"

/-- The `except Exception` block of run_factory (lines 283-294): the
error is recorded in the result and a best-effort failure checkpoint is
attempted, its own failure swallowed (lines 289-294). -/
def failSteps (env : OrchEnv) (msg : String) (saveIdx : Nat)
    (pp : Option Path) : List OStep :=
  [.addError msg,
   .saveCk "pipeline_failed" pp [("error", msg)] (env.saveOk saveIdx) 0]

/-- Orchestrator.run_factory (`orchestrator.py` lines 102-296) as the
list of primitive state actions it performs, computed from the agent
behaviours and the storage oracle.  Stage checkpoints (lines 132, 151,
177, 208, 273) are NOT wrapped in try/except: a failed save raises out
of `Orchestrator.checkpoint` into the top-level handler, which records
the error and stops the pipeline.  Output parsing (`SafetyCheck(**...)`
and its siblings) likewise raises into the top-level handler when the
output has the wrong shape.  Tester, doc and git stage failures are
warnings only. -/
def runFactorySteps (env : OrchEnv) (idea : Idea) : List OStep :=
  let e1 := env.runtime.execute_agent "safety_guard" "idea" none 0
  let safety_run := e1.2
  let s1 : List OStep := [.appendRun safety_run]
  if safety_run.status = "success" then
    match safety_run.output_data with
    | some (.safety approved warnings _blocked) =>
      if approved then
        let mdWarn := [("warnings", String.intercalate ", " warnings)]
        if env.saveOk 0 then
          let s2 := s1 ++ [.saveCk "safety_validated" none mdWarn true 0]
          let e2 := e1.1.execute_agent "planner" "idea" none 0
          let planner_run := e2.2
          let s3 := s2 ++ [.appendRun planner_run]
          if planner_run.status = "success" then
            match planner_run.output_data with
            | some (.plan taskCount complexity) =>
              let mdPlan := [("task_count", toString taskCount),
                             ("complexity", complexity)]
              if env.saveOk 1 then
                let s4 := s3 ++ [.saveCk "planning_complete" none mdPlan
                  true 0]
                let e3 := e2.1.execute_agent "architect" "architect_input"
                  none 0
                let architect_run := e3.2
                let s5 := s4 ++ [.appendRun architect_run]
                if architect_run.status = "success" then
                  match architect_run.output_data with
                  | some (.design projectName score) =>
                    let s6 := s5 ++ [.setProjectName projectName]
                    let mdArch := [("project_name", projectName),
                                   ("blue_collar_score", toString score)]
                    if env.saveOk 2 then
                      let s7 := s6 ++ [.saveCk "architecture_complete"
                        none mdArch true 0]
                      let e4 := e3.1.execute_agent "implementer" "spec"
                        none 0
                      let implementer_run := e4.2
                      let s8 := s7 ++ [.appendRun implementer_run]
                      if implementer_run.status = "success" then
                        match implementer_run.output_data with
                        | some (.code filesCreated) =>
                          let pp : Option Path :=
                            some ["projects", projectName]
                          let s9 := s8 ++ [.setProjectPath pp]
                          let mdImpl := [("files_created",
                            toString filesCreated)]
                          if env.saveOk 3 then
                            let s10 := s9 ++
                              [.saveCk "implementation_complete" pp
                                mdImpl true 0]
                            let e5 := e4.1.execute_agent "tester"
                              "test_input" none 0
                            let tester_run := e5.2
                            let s11 := s10 ++ [.appendRun tester_run]
                            let testOk :=
                              if tester_run.status = "success" then
                                match tester_run.output_data with
                                | some (.test _ _) => true
                                | _ => false
                              else true
                            if testOk then
                              let e6 := e5.1.execute_agent "doc_writer"
                                "spec" none 0
                              let doc_run := e6.2
                              let s12 := s11 ++ [.appendRun doc_run]
                              let docOk :=
                                if doc_run.status = "success" then
                                  match doc_run.output_data with
                                  | some (.docs _) => true
                                  | _ => false
                                else true
                              if docOk then
                                let e7 := e6.1.execute_agent "git_ops"
                                  "git_init" none 0
                                let git_init_run := e7.2
                                let s13 := s12 ++ [.appendRun git_init_run]
                                let s14 :=
                                  if git_init_run.status = "success" then
                                    s13 ++ [.appendRun
                                      (e7.1.execute_agent "git_ops"
                                        "git_commit" none 0).2]
                                  else s13
                                let mdDone := [("project_name", projectName),
                                  ("files_created", toString filesCreated),
                                  ("success", "True")]
                                if env.saveOk 4 then
                                  s14 ++ [.saveCk "pipeline_complete" pp
                                    mdDone true 0, .setSuccess]
                                else
                                  s14 ++ [.saveCk "pipeline_complete" pp
                                      mdDone false 0] ++
                                    failSteps env "Failed to save checkpoint"
                                      5 pp
                              else
                                s12 ++ failSteps env
                                  "invalid DocOutput output" 4 pp
                            else
                              s11 ++ failSteps env
                                "invalid TestResult output" 4 pp
                          else
                            s9 ++ [.saveCk "implementation_complete" pp
                                mdImpl false 0] ++
                              failSteps env "Failed to save checkpoint" 4 pp
                        | _ =>
                          s8 ++ failSteps env "invalid CodeOutput output"
                            3 none
                      else
                        s8 ++ [.addError ("Code implementation failed: " ++
                          errText implementer_run.error)]
                    else
                      s6 ++ [.saveCk "architecture_complete" none mdArch
                          false 0] ++
                        failSteps env "Failed to save checkpoint" 3 none
                  | _ =>
                    s5 ++ failSteps env "invalid ArchitectResult output"
                      2 none
                else
                  s5 ++ [.addError ("Architecture design failed: " ++
                    errText architect_run.error)]
              else
                s3 ++ [.saveCk "planning_complete" none mdPlan false 0] ++
                  failSteps env "Failed to save checkpoint" 2 none
            | _ =>
              s3 ++ failSteps env "invalid PlanResult output" 1 none
          else
            s3 ++ [.addError ("Planning failed: " ++
              errText planner_run.error)]
        else
          s1 ++ [.saveCk "safety_validated" none mdWarn false 0] ++
            failSteps env "Failed to save checkpoint" 1 none
      else
        s1 ++ [.addError ("Idea rejected by SafetyGuard: " ++
          String.intercalate ", " warnings)]
    | _ => s1 ++ failSteps env "invalid SafetyCheck output" 0 none
  else
    s1 ++ [.addError ("Safety check failed: " ++ errText safety_run.error),
           .addError "Recovery options: retry, skip, abort"]

/-- Orchestrator.run_factory: the effect of the run's actions on the
orchestrator state. -/
def runFactory (env : OrchEnv) (idea : Idea) (s : OrchState) : OrchState :=
  execSteps idea s (runFactorySteps env idea)

/-- A runtime in which every pipeline agent is registered and succeeds
instantly with a well-shaped output. -/
def allGoodRuntime : AgentRuntime :=
  ⟨[("safety_guard", ⟨.ok (.safety true [] []), 0⟩),
    ("planner", ⟨.ok (.plan 3 "low"), 0⟩),
    ("architect", ⟨.ok (.design "proj" 8), 0⟩),
    ("implementer", ⟨.ok (.code 2), 0⟩),
    ("tester", ⟨.ok (.test 1 1), 0⟩),
    ("doc_writer", ⟨.ok (.docs 1), 0⟩),
    ("git_ops", ⟨.ok .git, 0⟩)], []⟩

/-- C4 (amended): a checkpoint-save failure after a successful stage is
not best-effort bookkeeping: the exception raised by
`CheckpointManager.save_checkpoint` propagates out of
`Orchestrator.checkpoint` into run_factory's top-level handler, which
marks the run failed, records the error and skips all remaining stages;
only the failure checkpoint inside the exception path has its own
failure swallowed.  Concretely: when the safety stage succeeds and
approves the idea but the first checkpoint save fails, the result is a
failure whose ledger holds only the safety run. -/
theorem c4_checkpoint_save_failure_fails_run (env : OrchEnv) (idea : Idea)
    (ws bs : List String)
    (hstatus : (env.runtime.execute_agent "safety_guard" "idea" none
      0).2.status = "success")
    (hout : (env.runtime.execute_agent "safety_guard" "idea" none
      0).2.output_data = some (.safety true ws bs))
    (hsave : env.saveOk 0 = false) :
    (runFactory env idea OrchState.init).result_success = false ∧
    (runFactory env idea OrchState.init).result_errors =
      ["Failed to save checkpoint"] ∧
    (runFactory env idea OrchState.init).result_runs =
      [(env.runtime.execute_agent "safety_guard" "idea" none 0).2] := by
  rw [runFactory, runFactorySteps]
  simp only [hstatus, hout, hsave, if_true, Bool.false_eq_true, if_false,
    if_pos]
  cases h1 : env.saveOk 1 <;>
    simp [execSteps, execStep, failSteps, OrchState.init, h1]

theorem c4_checkpoint_save_failure_fails_run_witness :
    (runFactory ⟨allGoodRuntime, fun _ => false⟩ ⟨"x", [], none, [], []⟩
        OrchState.init).result_errors = ["Failed to save checkpoint"] :=
  (c4_checkpoint_save_failure_fails_run ⟨allGoodRuntime, fun _ => false⟩
    ⟨"x", [], none, [], []⟩ [] [] rfl rfl rfl).2.1

/-- C4 counterexample: with every agent registered and succeeding, the
claim says the run's outcome is determined only by stage outcomes, so it
should succeed; but a failing checkpoint store makes run_factory return
failure. -/
theorem c4_counterexample :
    ¬ ((runFactory ⟨allGoodRuntime, fun _ => false⟩ ⟨"x", [], none, [], []⟩
        OrchState.init).result_success = true) := by decide

/-- C8: at any point during a pipeline run — after any prefix of the
actions run_factory performs — the completed-runs list recorded in the
most recently saved Checkpoint is a prefix of the orchestrator's live
ledger, provided the invariant held when the run started (vacuously true
for a fresh orchestrator with no checkpoint). -/
theorem c8_checkpoint_runs_prefix_of_ledger (env : OrchEnv) (idea : Idea)
    (s0 : OrchState) (h0 : CkInv s0) (pre suf : List OStep)
    (hsplit : runFactorySteps env idea = pre ++ suf) :
    CkInv (execSteps idea s0 pre) :=
  execSteps_ckInv idea pre s0 h0

theorem c8_checkpoint_runs_prefix_of_ledger_witness :
    CkInv (execSteps ⟨"x", [], none, [], []⟩ OrchState.init
      (runFactorySteps ⟨allGoodRuntime, fun _ => true⟩
        ⟨"x", [], none, [], []⟩)) :=
  c8_checkpoint_runs_prefix_of_ledger ⟨allGoodRuntime, fun _ => true⟩
    ⟨"x", [], none, [], []⟩ OrchState.init
    (fun ck h => Option.noConfusion h)
    (runFactorySteps ⟨allGoodRuntime, fun _ => true⟩
      ⟨"x", [], none, [], []⟩) []
    (List.append_nil _).symm

end CodeFactory
